import Mathlib

/-!
Shallow embedding of the WhatsApp chat analyzer core
(`preprocessor.py` and `helper.py`), together with theorems checking the
specification's claims about it.

Python strings are modeled as `List Char` (`Str`).  The `strftime`
formatted month keys produced by `plot_monthly_timeline` are modeled as
their code-point sequences (`List Nat`), which is what Python string
comparison (and hence the pandas groupby key sort) operates on.
-/

abbrev Str := List Char

def mkStr (s : String) : Str := s.data

/-- ASCII whitespace, the characters matched by the regex class `\s`
(and stripped by `str.strip()`) on ASCII text. -/
def pyWs (c : Char) : Bool :=
  c.toNat = 32 || c.toNat = 9 || c.toNat = 10 || c.toNat = 13 ||
  c.toNat = 11 || c.toNat = 12

def isDigitCh (c : Char) : Bool := 48 ≤ c.toNat && c.toNat ≤ 57

/-- `str.strip()`: drop leading and trailing whitespace. -/
def trimPy (s : Str) : Str :=
  ((s.dropWhile (fun c => pyWs c)).reverse.dropWhile (fun c => pyWs c)).reverse

/-- membership in the char set of `strip(" - ")`: space and hyphen. -/
def isSpHy (c : Char) : Bool := c.toNat = 32 || c.toNat = 45

/-- `str.strip(" - ")`: drop leading and trailing spaces/hyphens. -/
def stripSpHy (s : Str) : Str :=
  ((s.dropWhile (fun c => isSpHy c)).reverse.dropWhile (fun c => isSpHy c)).reverse

/-- Boolean prefix test on lists. -/
def isPre {α : Type} [DecidableEq α] : List α → List α → Bool
  | [], _ => true
  | _ :: _, [] => false
  | a :: as, b :: bs => a = b && isPre as bs

/-- Substring containment, the semantics of `str.contains` /
`re.search` on a pattern with no metacharacters. -/
def containsSub {α : Type} [DecidableEq α] (pat : List α) : List α → Bool
  | [] => isPre pat []
  | c :: t => isPre pat (c :: t) || containsSub pat t


/-- Insertion into a duplicate-free `lt`-sorted list, keeping it sorted
and duplicate-free. -/
def insOrd {α : Type} [DecidableEq α] (lt : α → α → Bool) (x : α) : List α → List α
  | [] => [x]
  | y :: ys =>
      if x = y then y :: ys
      else if lt x y then x :: y :: ys
      else y :: insOrd lt x ys

/-- The sorted list of distinct elements of `l` (the key order pandas
`groupby(sort=True)` / `unique`-then-sort produce). -/
def uniqueSorted {α : Type} [DecidableEq α] (lt : α → α → Bool) (l : List α) : List α :=
  l.foldl (fun acc x => insOrd lt x acc) []



/-! ### Dates (`pd.to_datetime` with an explicit format) -/

/-- A parsed timestamp: `pd.to_datetime` output restricted to the fields
this program reads. -/
structure DateTime where
  year : Nat
  month : Nat
  day : Nat
  hour : Nat
  minute : Nat
deriving DecidableEq, Repr

def isLeap (y : Nat) : Bool := (y % 4 = 0 && ¬ y % 100 = 0) || y % 400 = 0

def daysInMonth (y m : Nat) : Nat :=
  if m = 2 then (if isLeap y then 29 else 28)
  else if m = 4 ∨ m = 6 ∨ m = 9 ∨ m = 11 then 30
  else 31

/-- The `%y` century rule: two-digit years 00-68 map to 2000-2068 and
69-99 map to 1969-1999. -/
def fullYear (yy : Nat) : Nat := if yy ≤ 68 then 2000 + yy else 1900 + yy

/-- Zeller's congruence; 0 = Saturday, 1 = Sunday, ..., 6 = Friday. -/
def zellerIndex (dt : DateTime) : Nat :=
  let m := if dt.month ≤ 2 then dt.month + 12 else dt.month
  let y := if dt.month ≤ 2 then dt.year - 1 else dt.year
  (dt.day + (13 * (m + 1)) / 5 + y % 100 + y % 100 / 4 + y / 100 / 4 + 5 * (y / 100)) % 7

def zeller_names : List Str :=
  [mkStr "Saturday", mkStr "Sunday", mkStr "Monday", mkStr "Tuesday",
   mkStr "Wednesday", mkStr "Thursday", mkStr "Friday"]

/-- `dt.day_name()` for a timestamp. -/
def day_name (dt : DateTime) : Str := zeller_names.getD (zellerIndex dt) []

/-- The fixed weekday axis of the activity charts (`day_order` /
`ordered_days` in helper.py). -/
def day_order : List Str :=
  [mkStr "Monday", mkStr "Tuesday", mkStr "Wednesday", mkStr "Thursday",
   mkStr "Friday", mkStr "Saturday", mkStr "Sunday"]

/-! ### Tokenizer: the delimiter regex
`\d{1,2}/\d{1,2}/\d{2,4},\s\d{1,2}:\d{2}\s-\s` with `re.split` /
`re.findall` scanning semantics. -/

/-- Consume exactly `n` digits. -/
def takeDigitsN : Nat → Str → Option Str
  | 0, s => some s
  | n + 1, c :: rest => if isDigitCh c then takeDigitsN n rest else none
  | _ + 1, [] => none

/-- Consume one literal character. -/
def litCh (c : Char) : Str → Option Str
  | x :: rest => if x = c then some rest else none
  | [] => none

/-- Consume one `\s` character. -/
def wsCh : Str → Option Str
  | x :: rest => if pyWs x then some rest else none
  | [] => none

/-- Try the alternatives of a bounded greedy quantifier in order
(longest first), exactly as the backtracking regex engine does. -/
def firstSomeStr (f : Nat → Option Str) : List Nat → Option Str
  | [] => none
  | n :: ns => match f n with
      | some r => some r
      | none => firstSomeStr f ns

/-- Match the delimiter pattern at the head of `u`; returns the
remaining suffix after the match. -/
def matchDelim (u : Str) : Option Str :=
  firstSomeStr (fun l1 => do
    let r ← takeDigitsN l1 u
    let r ← litCh '/' r
    firstSomeStr (fun l2 => do
      let r ← takeDigitsN l2 r
      let r ← litCh '/' r
      firstSomeStr (fun ly => do
        let r ← takeDigitsN ly r
        let r ← litCh ',' r
        let r ← wsCh r
        firstSomeStr (fun lh => do
          let r ← takeDigitsN lh r
          let r ← litCh ':' r
          let r ← takeDigitsN 2 r
          let r ← wsCh r
          let r ← litCh '-' r
          wsCh r) [2, 1]) [4, 3, 2]) [2, 1]) [2, 1]

/-- One scanning step: the end position of a delimiter match starting at
`i`, if any. -/
def matchEndAt (s : Str) (i : Nat) : Option Nat :=
  match matchDelim (s.drop i) with
  | some rest => some (i + ((s.drop i).length - rest.length))
  | none => none

/-- The `re` module scan: non-overlapping matches, leftmost first,
resuming after each match.  `fuel` bounds the recursion. -/
def scanSpansAux (s : Str) : Nat → Nat → List (Nat × Nat)
  | 0, _ => []
  | fuel + 1, i =>
      if i < s.length then
        match matchEndAt s i with
        | some e => (i, e) :: scanSpansAux s fuel (max e (i + 1))
        | none => scanSpansAux s fuel (i + 1)
      else []

/-- All (start, end) spans of delimiter matches in `s`. -/
def scanSpans (s : Str) : List (Nat × Nat) := scanSpansAux s (s.length + 1) 0

def substr (s : Str) (a b : Nat) : Str := (s.drop a).take (b - a)

/-- `re.split` with no capture groups: the segments around the matches. -/
def splitFromSpans (s : Str) : List (Nat × Nat) → Nat → List Str
  | [], start => [substr s start s.length]
  | (a, b) :: rest, start => substr s start a :: splitFromSpans s rest b

def re_split (s : Str) : List Str := splitFromSpans s (scanSpans s) 0

/-- `re.findall` on a pattern with no capture groups: the matched text. -/
def re_findall (s : Str) : List Str := (scanSpans s).map (fun p => substr s p.1 p.2)

/-- The message list built at preprocessor.py lines 13 and 23:
`re.split(pattern, data)[1:]`, then `str.strip()` on each entry. -/
def tokenizer_messages (s : Str) : List Str := ((re_split s).drop 1).map trimPy

/-- The date-string list built at preprocessor.py lines 14 and 17:
`re.findall(pattern, data)`, then `str.strip(" - ")` on each entry. -/
def tokenizer_dates (s : Str) : List Str := (re_findall s).map stripSpHy

/-- Specification-side description of the tokenizer output: for each
match span, the whitespace-trimmed text from the end of that match to
the start of the next match (or the end of input). -/
def segmentsAfter (s : Str) : List (Nat × Nat) → List Str
  | [] => []
  | (_, b) :: rest =>
      trimPy (substr s b (match rest with
        | [] => s.length
        | (c, _) :: _ => c)) :: segmentsAfter s rest

/-! ### Timestamp parsing: `pd.to_datetime(..., format=...)`
The field matchers implement the `strptime` token regexes:
`%m = 1[0-2]|0[1-9]|[1-9]`, `%d = 3[01]|[12]\d|0[1-9]|[1-9]`,
`%H = 2[0-3]|[01]\d|\d`, `%M = [0-5]\d|\d`, `%y = \d\d`.  For these
tokens, committing to the two-digit alternative when its guard holds is
equivalent to the backtracking regex (the follow-set is never a digit). -/

def digitVal (c : Char) : Option Nat :=
  if 48 ≤ c.toNat ∧ c.toNat ≤ 57 then some (c.toNat - 48) else none

/-- Match a one-or-two-digit numeric field: take two digits when
`twoOk` admits them, else one digit when `oneOk` admits it. -/
def matchTwoOne (twoOk : Nat → Nat → Bool) (oneOk : Nat → Bool) :
    Str → Option (Nat × Str)
  | c1 :: c2 :: rest =>
      match digitVal c1, digitVal c2 with
      | some d1, some d2 =>
          if twoOk d1 d2 then some (10 * d1 + d2, rest)
          else if oneOk d1 then some (d1, c2 :: rest) else none
      | some d1, none => if oneOk d1 then some (d1, c2 :: rest) else none
      | none, _ => none
  | [c1] =>
      match digitVal c1 with
      | some d1 => if oneOk d1 then some (d1, []) else none
      | none => none
  | [] => none

def matchMonthTok : Str → Option (Nat × Str) :=
  matchTwoOne (fun d1 d2 => (d1 = 0 && 1 ≤ d2) || (d1 = 1 && d2 ≤ 2))
    (fun d1 => 1 ≤ d1)

def matchDayTok : Str → Option (Nat × Str) :=
  matchTwoOne
    (fun d1 d2 => (d1 = 0 && 1 ≤ d2) || d1 = 1 || d1 = 2 || (d1 = 3 && d2 ≤ 1))
    (fun d1 => 1 ≤ d1)

def matchHourTok : Str → Option (Nat × Str) :=
  matchTwoOne (fun d1 d2 => d1 ≤ 1 || (d1 = 2 && d2 ≤ 3)) (fun _ => true)

def matchMinTok : Str → Option (Nat × Str) :=
  matchTwoOne (fun d1 _ => d1 ≤ 5) (fun _ => true)

/-- `%y`: exactly two digits. -/
def matchYearTok : Str → Option (Nat × Str)
  | c1 :: c2 :: rest =>
      match digitVal c1, digitVal c2 with
      | some d1, some d2 => some (10 * d1 + d2, rest)
      | _, _ => none
  | _ => none

def expectCh (c : Char) (s : Str) : Option Str := litCh c s

/-- One-or-more whitespace, the match of a literal blank in a
`strptime` format string. -/
def expectWs : Str → Option Str
  | x :: rest => if pyWs x then some (rest.dropWhile (fun c => pyWs c)) else none
  | [] => none

/-- Parse one timestamp string under `"%m/%d/%y, %H:%M"`
(`dayFirst = false`) or `"%d/%m/%y, %H:%M"` (`dayFirst = true`),
requiring the whole string to be consumed, then validating the
calendar date exactly as datetime construction does. -/
def parse_timestamp (dayFirst : Bool) (cs : Str) : Option DateTime := do
  let (a, r1) ← (if dayFirst then matchDayTok else matchMonthTok) cs
  let r2 ← expectCh '/' r1
  let (b, r3) ← (if dayFirst then matchMonthTok else matchDayTok) r2
  let r4 ← expectCh '/' r3
  let (y, r5) ← matchYearTok r4
  let r6 ← expectCh ',' r5
  let r7 ← expectWs r6
  let (hh, r8) ← matchHourTok r7
  let r9 ← expectCh ':' r8
  let (mi, r10) ← matchMinTok r9
  if r10 = [] then
    let m := if dayFirst then b else a
    let d := if dayFirst then a else b
    let yr := fullYear y
    if d ≤ daysInMonth yr m then some ⟨yr, m, d, hh, mi⟩ else none
  else none

/-- `pd.to_datetime` over a whole column: every entry must parse or the
call raises `ValueError` (here: `none`). -/
def to_datetime_batch (dayFirst : Bool) : List Str → Option (List DateTime)
  | [] => some []
  | d :: rest =>
      match parse_timestamp dayFirst d, to_datetime_batch dayFirst rest with
      | some t, some ts => some (t :: ts)
      | _, _ => none

/-- preprocessor.py lines 26-32: try month-first on the whole batch, on
failure retry the whole batch day-first, on failure fail. -/
def parse_dates (dates : List Str) : Option (List DateTime) :=
  match to_datetime_batch false dates with
  | some l => some l
  | none => to_datetime_batch true dates

/-! ### Message classifier
`re.split(r"([\w\W]+?):\s", message, maxsplit=1)` semantics: the
leftmost-lazy match places the split at the smallest position `j ≥ 1`
with `message[j] = ':'` and `message[j+1]` whitespace; the group (the
sender) is `message[0..j)` and the remainder is `message[j+2..]`. -/

def findColonWs : Str → Str → Option (Str × Str)
  | acc, c1 :: c2 :: rest =>
      if c1.toNat = 58 && pyWs c2 then some (acc.reverse, rest)
      else findColonWs (c1 :: acc) (c2 :: rest)
  | _, _ => none

/-- The split produced by the sender regex, if it matches. -/
def split_sender (body : Str) : Option (Str × Str) :=
  match body with
  | [] => none
  | c0 :: rest => findColonWs [c0] rest

/-- preprocessor.py lines 37-44: sender and content of one message
body; bodies with no sender boundary become a group notification. -/
def classify_msg (body : Str) : Str × Str :=
  match split_sender body with
  | some uc => uc
  | none => (mkStr "group_notification", body)

/-! ### Record builder -/

/-- One row of the transcript table, as built by `preprocess`.  The
derived time-bucket columns (`year`, `month`, ..., `day_of_week`) are
recovered from `date` by the functions above; `is_media` is the derived
media flag. -/
structure Record where
  date : DateTime
  user : Str
  message_content : Str
deriving DecidableEq, Repr

/-- preprocessor.py line 54:
`df["message_content"].str.contains(r"<Media omitted>")`. -/
def is_media (r : Record) : Bool :=
  containsSub (mkStr "<Media omitted>") r.message_content

/-- preprocessor.py `preprocess`: tokenize, parse the timestamp batch
(with the day-first fallback), classify each message.  `none` models
the `ValueError` raised when neither date convention parses the whole
batch; no table is returned in that case. -/
def preprocess (data : Str) : Option (List Record) :=
  match parse_dates (tokenizer_dates data) with
  | none => none
  | some dts =>
      some (((tokenizer_messages data).zip dts).map (fun p =>
        { date := p.2
          user := (classify_msg p.1).1
          message_content := (classify_msg p.1).2 }))

/-! ### Aggregator (`helper.py`) -/

/-- The sender filter applied by every aggregation entry point:
`if selected_user != 'Overall': df = df[df['user'] == selected_user]`. -/
def select_user (selected_user : Str) (df : List Record) : List Record :=
  if selected_user ≠ mkStr "Overall" then df.filter (fun r => r.user = selected_user)
  else df

/-- Python `str.split()`: maximal runs of non-whitespace characters
(`cur` accumulates the current word, reversed). -/
def splitWsAux (cur : Str) : Str → List Str
  | [] => if cur = [] then [] else [cur.reverse]
  | c :: rest =>
      if pyWs c then
        (if cur = [] then splitWsAux [] rest else cur.reverse :: splitWsAux [] rest)
      else splitWsAux (c :: cur) rest

def splitWs (s : Str) : List Str := splitWsAux [] s

/-- `str.contains(r'http[s]?://|www\.')`. -/
def has_link (r : Record) : Bool :=
  containsSub (mkStr "http://") r.message_content ||
  containsSub (mkStr "https://") r.message_content ||
  containsSub (mkStr "www.") r.message_content

/-- The four scalars returned by `fetch_stats`. -/
structure ChatStats where
  num_messages : Nat
  words : Nat
  num_media_messages : Nat
  num_links : Nat
deriving DecidableEq, Repr

/-- helper.py `fetch_stats`: message, word, media and link counts for
the selected user (media counted by exact equality with the
placeholder, links by substring containment). -/
def fetch_stats (selected_user : Str) (df : List Record) : ChatStats :=
  let d := select_user selected_user df
  { num_messages := d.length
    words := (d.map (fun r => (splitWs r.message_content).length)).sum
    num_media_messages :=
      (d.filter (fun r => r.message_content = mkStr "<Media omitted>")).length
    num_links := d.countP (fun r => has_link r) }

/-- Code-point lexicographic order, the comparison Python uses on
`str` values (and hence the pandas key sort for string keys). -/
def lexLtNat : List Nat → List Nat → Bool
  | [], [] => false
  | [], _ :: _ => true
  | _ :: _, [] => false
  | a :: as, b :: bs =>
      if a < b then true else if b < a then false else lexLtNat as bs

def lexLtCh (a b : Str) : Bool := lexLtNat (a.map Char.toNat) (b.map Char.toNat)

/-- first-occurrence order of distinct elements, the semantics of
pandas `Series.unique()`. -/
def uniqueFirst {α : Type} [DecidableEq α] (l : List α) : List α :=
  l.foldl (fun acc x => if x ∈ acc then acc else acc ++ [x]) []

/-- helper.py `get_user_list`: distinct users, sentinel removed, sorted,
with `"Overall"` prepended. -/
def get_user_list (df : List Record) : List Str :=
  let u := uniqueFirst (df.map (fun r => r.user))
  let u := u.erase (mkStr "group_notification")
  mkStr "Overall" :: uniqueSorted lexLtCh u

/-- helper.py `extract_emojis`, with the external `emoji.EMOJI_DATA`
membership test injected as a predicate. -/
def extract_emojis (isEmoji : Char → Bool) (message : Str) : Str :=
  message.filter isEmoji

/-- Descending stable insertion by count, the ranking of
`sort_values(by='Count', ascending=False)` on distinct symbols. -/
def insDesc (x : Char × Nat) : List (Char × Nat) → List (Char × Nat)
  | [] => [x]
  | y :: ys => if y.2 < x.2 then x :: y :: ys else y :: insDesc x ys

/-- helper.py `emoji_analysis`: total emoji count and the ranked
per-emoji count table for the selected user. -/
def emoji_analysis (isEmoji : Char → Bool) (selected_user : Str)
    (df : List Record) : Nat × List (Char × Nat) :=
  let d := select_user selected_user df
  let emojis := d.flatMap (fun r => extract_emojis isEmoji r.message_content)
  let tbl := (uniqueFirst emojis).map (fun e => (e, emojis.countP (fun x => x = e)))
  (emojis.length, tbl.foldl (fun acc x => insDesc x acc) [])

/-- zero-padded decimal digits (as code points), most significant
first: the body of a `%Y` / `%m` strftime field. -/
def padDigits : Nat → Nat → List Nat
  | 0, _ => []
  | n + 1, x => (48 + x / 10 ^ n) :: padDigits n (x % 10 ^ n)

/-- `dt.to_period('M').strftime('%Y-%m')` as a code-point string. -/
def month_year_key (dt : DateTime) : List Nat :=
  padDigits 4 dt.year ++ 45 :: padDigits 2 dt.month

/-- helper.py `plot_monthly_timeline` grouping: message counts per
`month_year` string, keys in the pandas groupby sort order
(lexicographic on the formatted strings). -/
def monthly_counts (selected_user : Str) (df : List Record) :
    List (List Nat × Nat) :=
  let d := select_user selected_user df
  (uniqueSorted lexLtNat (d.map (fun r => month_year_key r.date))).map
    (fun k => (k, d.countP (fun r => month_year_key r.date = k)))

def date_key (dt : DateTime) : Nat × Nat × Nat := (dt.year, dt.month, dt.day)

/-- Chronological comparison of calendar dates, the order pandas uses
to sort `date` group keys. -/
def dateLtB (a b : Nat × Nat × Nat) : Bool :=
  a.1 < b.1 || (a.1 = b.1 &&
    (a.2.1 < b.2.1 || (a.2.1 = b.2.1 && a.2.2 < b.2.2)))

/-- helper.py `plot_daily_timeline` grouping: message counts per
calendar date, keys sorted. -/
def daily_counts (selected_user : Str) (df : List Record) :
    List ((Nat × Nat × Nat) × Nat) :=
  let d := select_user selected_user df
  (uniqueSorted dateLtB (d.map (fun r => date_key r.date))).map
    (fun k => (k, d.countP (fun r => date_key r.date = k)))

/-- helper.py `plot_interactive_activity_analysis`, weekday part:
groupby on a `Categorical` with the fixed `day_order` categories emits
one row per category, in category order, zero-filled. -/
def weekly_activity (selected_user : Str) (df : List Record) :
    List (Str × Nat) :=
  let d := select_user selected_user df
  day_order.map (fun dn => (dn, d.countP (fun r => day_name r.date = dn)))

/-- helper.py `plot_interactive_activity_analysis`, hour part:
`groupby(df["date"].dt.hour).size()` — data-driven keys, sorted. -/
def hourly_activity (selected_user : Str) (df : List Record) :
    List (Nat × Nat) :=
  let d := select_user selected_user df
  (uniqueSorted (fun a b => decide (a < b)) (d.map (fun r => r.date.hour))).map
    (fun h => (h, d.countP (fun r => r.date.hour = h)))

/-! ### Activity heatmap (`plot_activity_heatmap_matplotlib`) -/

/-- The pivot's column axis: the distinct hours present, sorted. -/
def hour_cols (df : List Record) : List Nat :=
  uniqueSorted (fun a b => decide (a < b)) (df.map (fun r => r.date.hour))

/-- `pivot_table(index="day_of_week", columns="hour", aggfunc="count")`:
one row per day name present (sorted), one column per hour present
(sorted); combinations with no records are NaN (`none`). -/
def pivot_rows (df : List Record) : List (Str × List (Option Nat)) :=
  (uniqueSorted lexLtCh (df.map (fun r => day_name r.date))).map (fun dn =>
    (dn, (hour_cols df).map (fun h =>
      let c := df.countP (fun r => day_name r.date = dn ∧ r.date.hour = h)
      if c = 0 then none else some c)))

/-- `.fillna(0)`: replace NaN cells with 0 in the existing rows. -/
def fillna0 (rows : List (Str × List (Option Nat))) :
    List (Str × List (Option Nat)) :=
  rows.map (fun p => (p.1, p.2.map (fun c => some (c.getD 0))))

/-- The row `reindex` selects for one day: the frame's row when the
day is a key of the frame, an all-NaN row otherwise. -/
def reindexRow (rows : List (Str × List (Option Nat))) (ncols : Nat) (dn : Str) :
    List (Option Nat) :=
  match rows.find? (fun p => p.1 = dn) with
  | some p => p.2
  | none => List.replicate ncols none

/-- `.reindex(ordered_days)`: one row per day in the fixed order; days
absent from the frame become all-NaN rows. -/
def reindex_days (rows : List (Str × List (Option Nat))) (ncols : Nat) :
    List (Str × List (Option Nat)) :=
  day_order.map (fun dn => (dn, reindexRow rows ncols dn))

/-- The heatmap matrix handed to `matshow`: pivot, then `fillna(0)`,
then `reindex(ordered_days)` — in that order. -/
def heatmap_grid (df : List Record) : List (Str × List (Option Nat)) :=
  reindex_days (fillna0 (pivot_rows df)) (hour_cols df).length

/-! ### The session table and the plotting entry points (claim C4)
The pandas DataFrame passed to the plotting helpers is the session's
transcript table.  Column assignments like `df['month_year'] = ...`
reach the caller's table exactly when the helper did not first rebind
`df` to a filtered copy (i.e. when the filter is `"Overall"`); a
filtered `df = df[df["user"] == u]` is a fresh copy, so the caller's
table is untouched.  `Table.extraCols` records the schema: the derived
columns added to the frame after `preprocess` built it. -/

structure Table where
  records : List Record
  extraCols : List Str
deriving DecidableEq, Repr

def addCol (name : Str) (t : Table) : Table :=
  if name ∈ t.extraCols then t else { t with extraCols := t.extraCols ++ [name] }

/-- helper.py `plot_monthly_timeline`: returns the monthly counts and
the caller-visible table after the call (the `month_year` column was
assigned into the caller's frame when no filtered copy was taken). -/
def plot_monthly_timeline (selected_user : Str) (t : Table) :
    List (List Nat × Nat) × Table :=
  (monthly_counts selected_user t.records,
   if selected_user ≠ mkStr "Overall" then t else addCol (mkStr "month_year") t)

/-- helper.py `plot_daily_timeline`: no column is assigned. -/
def plot_daily_timeline (selected_user : Str) (t : Table) :
    List ((Nat × Nat × Nat) × Nat) × Table :=
  (daily_counts selected_user t.records, t)

/-- helper.py `plot_interactive_activity_analysis`: the `day_name`
column is assigned into the caller's frame when no filtered copy was
taken. -/
def plot_interactive_activity_analysis (selected_user : Str) (t : Table) :
    (List (Str × Nat) × List (Nat × Nat)) × Table :=
  ((weekly_activity selected_user t.records, hourly_activity selected_user t.records),
   if selected_user ≠ mkStr "Overall" then t else addCol (mkStr "day_name") t)

/-- helper.py `plot_activity_heatmap_matplotlib`: reassigns the
existing `day_of_week` and `hour` columns with values recomputed from
`date` — identical to what `preprocess` stored, so the observable
table is unchanged. -/
def plot_activity_heatmap_matplotlib (t : Table) :
    List (Str × List (Option Nat)) × Table :=
  (heatmap_grid t.records, t)

/-! ### Unfiltered ("whole table") aggregation, for claim C10 -/

/-- `fetch_stats` body with no sender restriction. -/
def fetch_stats_all (df : List Record) : ChatStats :=
  { num_messages := df.length
    words := (df.map (fun r => (splitWs r.message_content).length)).sum
    num_media_messages :=
      (df.filter (fun r => r.message_content = mkStr "<Media omitted>")).length
    num_links := df.countP (fun r => has_link r) }

/-- `emoji_analysis` body with no sender restriction. -/
def emoji_analysis_all (isEmoji : Char → Bool) (df : List Record) :
    Nat × List (Char × Nat) :=
  let emojis := df.flatMap (fun r => extract_emojis isEmoji r.message_content)
  let tbl := (uniqueFirst emojis).map (fun e => (e, emojis.countP (fun x => x = e)))
  (emojis.length, tbl.foldl (fun acc x => insDesc x acc) [])

/-- `monthly_counts` grouping with no sender restriction. -/
def monthly_counts_all (df : List Record) : List (List Nat × Nat) :=
  (uniqueSorted lexLtNat (df.map (fun r => month_year_key r.date))).map
    (fun k => (k, df.countP (fun r => month_year_key r.date = k)))

/-- `daily_counts` grouping with no sender restriction. -/
def daily_counts_all (df : List Record) : List ((Nat × Nat × Nat) × Nat) :=
  (uniqueSorted dateLtB (df.map (fun r => date_key r.date))).map
    (fun k => (k, df.countP (fun r => date_key r.date = k)))

/-- weekday grouping with no sender restriction. -/
def weekly_activity_all (df : List Record) : List (Str × Nat) :=
  day_order.map (fun dn => (dn, df.countP (fun r => day_name r.date = dn)))

/-- hourly grouping with no sender restriction. -/
def hourly_activity_all (df : List Record) : List (Nat × Nat) :=
  (uniqueSorted (fun a b => decide (a < b)) (df.map (fun r => r.date.hour))).map
    (fun h => (h, df.countP (fun r => r.date.hour = h)))

/-! ### Specification-side definitions used to state the claims -/

/-- Decimal read-back of a code-point digit string (inverse of
`padDigits`): used to state chronological order of month keys. -/
def readNat (l : List Nat) : Nat := l.foldl (fun a c => 10 * a + (c - 48)) 0

/-- The calendar period (months since year 0) denoted by a
`"YYYY-MM"` key. -/
def periodOfKey (k : List Nat) : Nat := 12 * readNat (k.take 4) + readNat (k.drop 5)

/-- Chronological (calendar) order on `(year, month, day)` keys. -/
def dateLt (a b : Nat × Nat × Nat) : Prop :=
  a.1 < b.1 ∨ (a.1 = b.1 ∧ (a.2.1 < b.2.1 ∨ (a.2.1 = b.2.1 ∧ a.2.2 < b.2.2)))

/-- There is a colon at position `j` of `body` followed immediately by a
whitespace character. -/
def boundaryAt (body : Str) (j : Nat) : Bool :=
  match body.drop j with
  | c1 :: c2 :: _ => c1.toNat = 58 && pyWs c2
  | _ => false

/-- A sender split point: a colon-whitespace boundary preceded by at
least one character. -/
def senderBoundary (body : Str) (j : Nat) : Prop :=
  1 ≤ j ∧ boundaryAt body j = true

instance (body : Str) (j : Nat) : Decidable (senderBoundary body j) :=
  inferInstanceAs (Decidable (1 ≤ j ∧ boundaryAt body j = true))

/-! ### Concrete tables used by counterexamples and witnesses -/

/-- One record: 2024-01-31 (a Wednesday) 10:00, from Alice. -/
def sample_rec : Record :=
  { date := ⟨2024, 1, 31, 10, 0⟩, user := mkStr "Alice",
    message_content := mkStr "hello" }

/-- A record whose content strictly contains (but does not equal) the
media placeholder. -/
def c1_rec : Record :=
  { date := ⟨2024, 1, 31, 10, 0⟩, user := mkStr "Alice",
    message_content := mkStr "see <Media omitted>" }

/-- A record whose content is exactly the media placeholder. -/
def c1_rec_exact : Record :=
  { date := ⟨2024, 1, 31, 10, 0⟩, user := mkStr "Bob",
    message_content := mkStr "<Media omitted>" }

/-- A freshly preprocessed session table (no derived columns yet). -/
def c4_table : Table := { records := [sample_rec], extraCols := [] }

/-- Three records spanning Dec 2023 - Feb 2024. -/
def c8_df : List Record :=
  [{ date := ⟨2023, 12, 5, 9, 0⟩, user := mkStr "Alice", message_content := mkStr "a" },
   { date := ⟨2024, 1, 15, 9, 0⟩, user := mkStr "Bob", message_content := mkStr "b" },
   { date := ⟨2024, 2, 20, 9, 0⟩, user := mkStr "Alice", message_content := mkStr "c" }]

/-- A table containing a real sender literally named `"Overall"`. -/
def c10_df : List Record :=
  [{ date := ⟨2024, 1, 31, 10, 0⟩, user := mkStr "Overall",
     message_content := mkStr "hi" }]
theorem isPre_refl {α : Type} [DecidableEq α] (s : List α) : isPre s s = true := by
  induction s with
  | nil => rfl
  | cons a as ih => simp [isPre, ih]

theorem containsSub_self {α : Type} [DecidableEq α] (s : List α) :
    containsSub s s = true := by
  cases s with
  | nil => rfl
  | cons c t => simp [containsSub, isPre_refl]

theorem mem_insOrd {α : Type} [DecidableEq α] (lt : α → α → Bool) (x a : α) :
    ∀ l : List α, (a ∈ insOrd lt x l ↔ a = x ∨ a ∈ l) := by
  intro l
  induction l with
  | nil => simp [insOrd]
  | cons y ys ih =>
      by_cases hxy : x = y
      · subst hxy; simp [insOrd]
      · by_cases hlt : lt x y = true
        · simp [insOrd, hxy, hlt]
        · simp [insOrd, hxy, hlt, ih]; tauto

theorem mem_uniqueSorted {α : Type} [DecidableEq α] (lt : α → α → Bool) (a : α)
    (l : List α) : a ∈ uniqueSorted lt l ↔ a ∈ l := by
  have key : ∀ (l : List α) (acc : List α),
      a ∈ l.foldl (fun acc x => insOrd lt x acc) acc ↔ a ∈ acc ∨ a ∈ l := by
    intro l
    induction l with
    | nil => intro acc; simp
    | cons x xs ih =>
        intro acc
        rw [List.foldl_cons, ih, mem_insOrd]
        simp only [List.mem_cons]
        tauto
  simpa [uniqueSorted] using (key l [])

/-- `Chain'` of the strict comparator is preserved by `insOrd`, given
totality of the comparator. -/
theorem chain'_insOrd {α : Type} [DecidableEq α] (lt : α → α → Bool)
    (total : ∀ a b : α, a ≠ b → lt a b = true ∨ lt b a = true) (x : α) :
    ∀ l : List α, List.Chain' (fun a b => lt a b = true) l →
      List.Chain' (fun a b => lt a b = true) (insOrd lt x l) := by
  intro l
  induction l with
  | nil => intro _; simp [insOrd]
  | cons y ys ih =>
      intro hch
      rw [List.chain'_cons'] at hch
      obtain ⟨hhd, htl⟩ := hch
      by_cases hxy : x = y
      · subst hxy
        simpa [insOrd] using (List.chain'_cons'.mpr ⟨hhd, htl⟩)
      · by_cases hlt : lt x y = true
        · simp only [insOrd, if_neg hxy, if_pos hlt]
          rw [List.chain'_cons]
          exact ⟨hlt, List.chain'_cons'.mpr ⟨hhd, htl⟩⟩
        · have hyx : lt y x = true := by
            rcases total x y hxy with h | h
            · exact absurd h hlt
            · exact h
          simp only [insOrd, if_neg hxy, if_neg hlt]
          rw [List.chain'_cons']
          refine ⟨?_, ih htl⟩
          intro z hz
          cases ys with
          | nil => simp [insOrd] at hz; subst hz; exact hyx
          | cons w ws =>
              by_cases hxw : x = w
              · simp [insOrd, hxw] at hz
                subst hz
                exact hhd w rfl
              · by_cases hlw : lt x w = true
                · simp [insOrd, hxw, hlw] at hz
                  subst hz; exact hyx
                · simp [insOrd, hxw, hlw] at hz
                  subst hz
                  exact hhd w rfl

theorem chain'_uniqueSorted {α : Type} [DecidableEq α] (lt : α → α → Bool)
    (total : ∀ a b : α, a ≠ b → lt a b = true ∨ lt b a = true) (l : List α) :
    List.Chain' (fun a b => lt a b = true) (uniqueSorted lt l) := by
  have h : ∀ (l acc : List α), List.Chain' (fun a b => lt a b = true) acc →
      List.Chain' (fun a b => lt a b = true)
        (l.foldl (fun acc x => insOrd lt x acc) acc) := by
    intro l
    induction l with
    | nil => intro acc h; simpa using h
    | cons x xs ih =>
        intro acc h
        exact ih _ (chain'_insOrd lt total x acc h)
  exact h l [] (by simp)

/-- A `Chain'` can be transported along an implication that may use
membership of both endpoints. -/
theorem chain'_imp_of_mem {α : Type} {R S : α → α → Prop} :
    ∀ l : List α, List.Chain' R l →
      (∀ a ∈ l, ∀ b ∈ l, R a b → S a b) → List.Chain' S l
  | [], _, _ => List.chain'_nil
  | [_], _, _ => List.chain'_singleton _
  | a :: b :: t, h, himp => by
      rw [List.chain'_cons] at h ⊢
      refine ⟨himp a (by simp) b (by simp) h.1, ?_⟩
      exact chain'_imp_of_mem (b :: t) h.2
        (fun x hx y hy hr =>
          himp x (List.mem_cons_of_mem a hx) y (List.mem_cons_of_mem a hy) hr)

/-! ### Batch-parsing lemmas -/

theorem to_datetime_batch_isSome (b : Bool) (dates : List Str)
    (h : ∀ d ∈ dates, (parse_timestamp b d).isSome = true) :
    (to_datetime_batch b dates).isSome = true := by
  induction dates with
  | nil => simp [to_datetime_batch]
  | cons d rest ih =>
      have h1 := h d (by simp)
      have h2 := ih (fun x hx => h x (by simp [hx]))
      simp only [to_datetime_batch]
      cases ho : parse_timestamp b d with
      | none => rw [ho] at h1; simp at h1
      | some t =>
          cases hr : to_datetime_batch b rest with
          | none => rw [hr] at h2; simp at h2
          | some ts => simp

theorem to_datetime_batch_none (b : Bool) (dates : List Str)
    (h : ∃ d ∈ dates, parse_timestamp b d = none) :
    to_datetime_batch b dates = none := by
  induction dates with
  | nil => obtain ⟨d, hd, _⟩ := h; simp at hd
  | cons d rest ih =>
      obtain ⟨x, hx, hnone⟩ := h
      simp only [List.mem_cons] at hx
      simp only [to_datetime_batch]
      rcases hx with rfl | hx
      · rw [hnone]
      · rw [ih ⟨x, hx, hnone⟩]
        cases parse_timestamp b x <;> cases parse_timestamp b d <;> rfl

/-! ### Order and membership lemmas -/

theorem mem_uniqueFirst {α : Type} [DecidableEq α] (a : α) (l : List α) :
    a ∈ uniqueFirst l ↔ a ∈ l := by
  have key : ∀ (l acc : List α),
      a ∈ l.foldl (fun acc x => if x ∈ acc then acc else acc ++ [x]) acc ↔
        a ∈ acc ∨ a ∈ l := by
    intro l
    induction l with
    | nil => intro acc; simp
    | cons x xs ih =>
        intro acc
        simp only [List.foldl_cons]
        by_cases hx : x ∈ acc
        · rw [if_pos hx, ih]
          simp only [List.mem_cons]
          constructor
          · tauto
          · rintro (h | rfl | h) <;> tauto
        · rw [if_neg hx, ih]
          simp only [List.mem_append, List.mem_cons, List.mem_singleton]
          tauto
  simpa [uniqueFirst] using key l []

theorem natLtB_total (a b : Nat) (h : a ≠ b) :
    (fun a b : Nat => decide (a < b)) a b = true ∨
      (fun a b : Nat => decide (a < b)) b a = true := by
  simp only [decide_eq_true_eq]
  omega

theorem lexLtNat_total : ∀ a b : List Nat, a ≠ b →
    lexLtNat a b = true ∨ lexLtNat b a = true := by
  intro a
  induction a with
  | nil =>
      intro b h
      cases b with
      | nil => exact absurd rfl h
      | cons y ys => left; rfl
  | cons x xs ih =>
      intro b h
      cases b with
      | nil => right; rfl
      | cons y ys =>
          by_cases hxy : x = y
          · subst hxy
            have hne : xs ≠ ys := fun he => h (by rw [he])
            rcases ih ys hne with h1 | h1
            · left; simp [lexLtNat, h1]
            · right; simp [lexLtNat, h1]
          · rcases Nat.lt_or_ge x y with hlt | hge
            · left; simp [lexLtNat, hlt]
            · have hgt : y < x := by omega
              right; simp [lexLtNat, hgt]

theorem lexLtNat_irrefl : ∀ l : List Nat, lexLtNat l l = false := by
  intro l
  induction l with
  | nil => rfl
  | cons x xs ih => simp [lexLtNat, ih]

theorem dateLtB_total (a b : Nat × Nat × Nat) (h : a ≠ b) :
    dateLtB a b = true ∨ dateLtB b a = true := by
  obtain ⟨a1, a2, a3⟩ := a
  obtain ⟨b1, b2, b3⟩ := b
  have h' : ¬(a1 = b1 ∧ a2 = b2 ∧ a3 = b3) := by
    intro hc
    exact h (by simp [hc.1, hc.2.1, hc.2.2])
  simp only [dateLtB, Bool.or_eq_true, Bool.and_eq_true, decide_eq_true_eq]
  omega

theorem dateLtB_dateLt (a b : Nat × Nat × Nat) (h : dateLtB a b = true) :
    dateLt a b := by
  simp only [dateLtB, Bool.or_eq_true, Bool.and_eq_true, decide_eq_true_eq] at h
  simp only [dateLt]
  tauto

/-! ### Digit-string lemmas: lexicographic order of zero-padded decimal
strings coincides with numeric order -/

theorem padDigits_length : ∀ (n x : Nat), (padDigits n x).length = n := by
  intro n
  induction n with
  | zero => intro x; rfl
  | succ k ih => intro x; simp [padDigits, ih]

theorem padDigits_foldl : ∀ (n x acc : Nat), x < 10 ^ n →
    (padDigits n x).foldl (fun a c => 10 * a + (c - 48)) acc = acc * 10 ^ n + x := by
  intro n
  induction n with
  | zero =>
      intro x acc hx
      interval_cases x
      simp [padDigits]
  | succ k ih =>
      intro x acc hx
      have hpos : 0 < 10 ^ k := Nat.pos_pow_of_pos k (by omega)
      simp only [padDigits, List.foldl_cons]
      rw [ih (x % 10 ^ k) (10 * acc + (48 + x / 10 ^ k - 48)) (Nat.mod_lt _ hpos)]
      have hd : 48 + x / 10 ^ k - 48 = x / 10 ^ k :=
        Nat.add_sub_cancel_left 48 (x / 10 ^ k)
      rw [hd, pow_succ]
      calc (10 * acc + x / 10 ^ k) * 10 ^ k + x % 10 ^ k
          = acc * (10 ^ k * 10) + (10 ^ k * (x / 10 ^ k) + x % 10 ^ k) := by ring
        _ = acc * (10 ^ k * 10) + x := by rw [Nat.div_add_mod]

theorem readNat_padDigits (n x : Nat) (hx : x < 10 ^ n) :
    readNat (padDigits n x) = x := by
  simpa [readNat] using padDigits_foldl n x 0 hx

theorem lexLtNat_padDigits : ∀ (n x y : Nat), x < 10 ^ n → y < 10 ^ n →
    (lexLtNat (padDigits n x) (padDigits n y) = true ↔ x < y) := by
  intro n
  induction n with
  | zero =>
      intro x y hx hy
      interval_cases x
      interval_cases y
      simp [padDigits, lexLtNat]
  | succ k ih =>
      intro x y hx hy
      have hpos : 0 < 10 ^ k := Nat.pos_pow_of_pos k (by omega)
      simp only [padDigits, lexLtNat]
      by_cases h1 : x / 10 ^ k < y / 10 ^ k
      · have hxy : x < y := Nat.lt_of_div_lt_div h1
        simp [show 48 + x / 10 ^ k < 48 + y / 10 ^ k by omega, hxy]
      · by_cases h2 : y / 10 ^ k < x / 10 ^ k
        · have hyx : y < x := Nat.lt_of_div_lt_div h2
          simp [show ¬ 48 + x / 10 ^ k < 48 + y / 10 ^ k by omega,
                show 48 + y / 10 ^ k < 48 + x / 10 ^ k by omega]
          omega
        · have heq : x / 10 ^ k = y / 10 ^ k := by omega
          simp only [show ¬ 48 + x / 10 ^ k < 48 + y / 10 ^ k by omega, if_false,
                     show ¬ 48 + y / 10 ^ k < 48 + x / 10 ^ k by omega]
          rw [ih (x % 10 ^ k) (y % 10 ^ k) (Nat.mod_lt _ hpos) (Nat.mod_lt _ hpos)]
          obtain ⟨C, hCx, hCy⟩ :
              ∃ C, C + x % 10 ^ k = x ∧ C + y % 10 ^ k = y :=
            ⟨10 ^ k * (x / 10 ^ k), Nat.div_add_mod x (10 ^ k),
             by rw [heq]; exact Nat.div_add_mod y (10 ^ k)⟩
          omega

theorem padDigits_inj (n x y : Nat) (hx : x < 10 ^ n) (hy : y < 10 ^ n)
    (he : padDigits n x = padDigits n y) : x = y := by
  by_contra hne
  have hx' := lexLtNat_padDigits n x y hx hy
  have hy' := lexLtNat_padDigits n y x hy hx
  rw [he, lexLtNat_irrefl] at hx'
  rw [he, lexLtNat_irrefl] at hy'
  simp at hx' hy'
  omega

theorem lexLtNat_append : ∀ (p q s1 s2 : List Nat), p.length = q.length →
    (lexLtNat (p ++ s1) (q ++ s2) = true ↔
      lexLtNat p q = true ∨ (p = q ∧ lexLtNat s1 s2 = true)) := by
  intro p
  induction p with
  | nil =>
      intro q s1 s2 hlen
      cases q with
      | nil => simp [lexLtNat]
      | cons b bs => simp at hlen
  | cons a as ih =>
      intro q s1 s2 hlen
      cases q with
      | nil => simp at hlen
      | cons b bs =>
          simp only [List.cons_append, lexLtNat, List.cons.injEq]
          by_cases hab : a < b
          · simp [hab]
          · by_cases hba : b < a
            · have : a ≠ b := by omega
              simp [hab, hba, this]
            · have : a = b := by omega
              subst this
              simp only [Nat.lt_irrefl, if_false, true_and]
              simp only [List.length_cons] at hlen
              exact ih bs s1 s2 (by omega)

/-! ### Month-key lemmas -/

theorem periodOfKey_month_year_key (dt : DateTime) (hy : dt.year ≤ 9999)
    (hm : dt.month ≤ 12) :
    periodOfKey (month_year_key dt) = 12 * dt.year + dt.month := by
  have h4 : (padDigits 4 dt.year).length = 4 := padDigits_length 4 dt.year
  have hassoc : padDigits 4 dt.year ++ 45 :: padDigits 2 dt.month =
      (padDigits 4 dt.year ++ [45]) ++ padDigits 2 dt.month := by
    simp
  have h5 : (padDigits 4 dt.year ++ [45]).length = 5 := by
    simp [h4]
  unfold periodOfKey
  rw [show (4 : Nat) = (padDigits 4 dt.year).length from h4.symm,
      month_year_key, List.take_left]
  rw [hassoc, show (5 : Nat) = (padDigits 4 dt.year ++ [45]).length from h5.symm,
      List.drop_left]
  rw [readNat_padDigits 4 dt.year (by omega), readNat_padDigits 2 dt.month (by omega)]

theorem month_key_lt (d1 d2 : DateTime)
    (h1y : d1.year ≤ 9999) (h1m : 1 ≤ d1.month ∧ d1.month ≤ 12)
    (h2y : d2.year ≤ 9999) (h2m : 1 ≤ d2.month ∧ d2.month ≤ 12)
    (hlex : lexLtNat (month_year_key d1) (month_year_key d2) = true) :
    12 * d1.year + d1.month < 12 * d2.year + d2.month := by
  unfold month_year_key at hlex
  have hlen : (padDigits 4 d1.year).length = (padDigits 4 d2.year).length := by
    rw [padDigits_length, padDigits_length]
  rw [lexLtNat_append _ _ _ _ hlen] at hlex
  rcases hlex with h | ⟨heq, htail⟩
  · have : d1.year < d2.year :=
      (lexLtNat_padDigits 4 _ _ (by omega) (by omega)).1 h
    omega
  · have hy : d1.year = d2.year := padDigits_inj 4 _ _ (by omega) (by omega) heq
    simp only [lexLtNat, Nat.lt_irrefl, if_false] at htail
    have : d1.month < d2.month :=
      (lexLtNat_padDigits 2 _ _ (by omega) (by omega)).1 htail
    omega

/-! ### Claim C1 -/

/-- C1 counterexample: the claim that `fetch_stats`'s media count
equals the number of selected records with `is_media = true` fails —
a record whose content strictly contains the placeholder has
`is_media = true` but is not counted by `fetch_stats`, which compares
for exact equality. -/
theorem c1_counterexample :
    is_media c1_rec = true ∧
    (fetch_stats (mkStr "Overall") [c1_rec]).num_media_messages = 0 ∧
    List.countP (fun r => is_media r) (select_user (mkStr "Overall") [c1_rec]) = 1 := by
  decide

/-- C1 (amended): `fetch_stats` counts media messages by exact equality
of the content with `"<Media omitted>"` over the selected records;
`is_media` is the weaker containment test, so a message whose content
exactly equals the placeholder has `is_media = true` and contributes to
`num_media_messages`, and the media count never exceeds the number of
selected records with `is_media = true`. -/
theorem c1_amended (selected_user : Str) (df : List Record) :
    (fetch_stats selected_user df).num_media_messages =
      ((select_user selected_user df).filter
        (fun r => r.message_content = mkStr "<Media omitted>")).length ∧
    (∀ r : Record, r.message_content = mkStr "<Media omitted>" →
      is_media r = true) ∧
    (fetch_stats selected_user df).num_media_messages ≤
      List.countP (fun r => is_media r) (select_user selected_user df) := by
  refine ⟨rfl, ?_, ?_⟩
  · intro r hr
    simp only [is_media, hr]
    exact containsSub_self _
  · show ((select_user selected_user df).filter
        (fun r => r.message_content = mkStr "<Media omitted>")).length ≤ _
    rw [← List.countP_eq_length_filter]
    apply List.countP_mono_left
    intro r _ hr
    simp only [decide_eq_true_eq] at hr
    simp only [is_media, hr]
    exact containsSub_self _

/-- C1 witness: a record whose content is exactly the placeholder is
flagged and counted. -/
theorem c1_witness :
    is_media c1_rec_exact = true ∧
    (fetch_stats (mkStr "Overall") [c1_rec_exact]).num_media_messages = 1 :=
  ⟨(c1_amended (mkStr "Overall") [c1_rec_exact]).2.1 c1_rec_exact (by decide),
   by decide⟩

/-! ### Claim C2 -/

/-- C2 counterexample: on a one-record table, `hourly_activity` (the
hour grouping of `plot_interactive_activity_analysis`) has one row, not
the 24 zero-filled rows the claim asserts. -/
theorem c2_counterexample :
    (hourly_activity (mkStr "Overall") [sample_rec]).length = 1 ∧
    ¬ (hourly_activity (mkStr "Overall") [sample_rec]).length = 24 := by
  decide

/-- C2 (amended): the weekday grouping always has exactly 7 rows, in
fixed Monday-to-Sunday order, with zero-count rows for weekdays absent
from the selection; the hour grouping instead has one row per distinct
hour present in the selection, in increasing hour order — absent hours
produce no rows. -/
theorem c2_amended (selected_user : Str) (df : List Record) :
    (weekly_activity selected_user df).map Prod.fst = day_order ∧
    (weekly_activity selected_user df).length = 7 ∧
    (∀ dn ∈ day_order,
      (∀ r ∈ select_user selected_user df, day_name r.date ≠ dn) →
        (dn, 0) ∈ weekly_activity selected_user df) ∧
    List.Chain' (fun a b => a.1 < b.1) (hourly_activity selected_user df) ∧
    (∀ h : Nat,
      (∃ c, (h, c) ∈ hourly_activity selected_user df) ↔
        ∃ r ∈ select_user selected_user df, r.date.hour = h) := by
  refine ⟨?_, ?_, ?_, ?_, ?_⟩
  · simp [weekly_activity, List.map_map, Function.comp_def]
  · simp [weekly_activity, day_order]
  · intro dn hdn hnone
    have hz : (select_user selected_user df).countP
        (fun r => day_name r.date = dn) = 0 := by
      rw [List.countP_eq_zero]
      intro r hr
      simp only [decide_eq_true_eq]
      exact hnone r hr
    simp only [weekly_activity]
    exact List.mem_map.2 ⟨dn, hdn, by rw [hz]⟩
  · have hkeys := chain'_uniqueSorted (fun a b : Nat => decide (a < b))
      (fun a b h => natLtB_total a b h)
      ((select_user selected_user df).map (fun r => r.date.hour))
    simp only [hourly_activity]
    rw [List.chain'_map]
    exact hkeys.imp (fun a b hab => of_decide_eq_true hab)
  · intro h
    constructor
    · rintro ⟨c, hc⟩
      simp only [hourly_activity, List.mem_map] at hc
      obtain ⟨k, hk, he⟩ := hc
      have hkh : k = h := congrArg Prod.fst he
      subst hkh
      have hmem := (mem_uniqueSorted _ _ _).1 hk
      simpa using hmem
    · rintro ⟨r, hr, hrh⟩
      refine ⟨(select_user selected_user df).countP
        (fun x => x.date.hour = h), ?_⟩
      simp only [hourly_activity]
      refine List.mem_map.2 ⟨h, ?_, rfl⟩
      rw [mem_uniqueSorted]
      exact List.mem_map.2 ⟨r, hr, hrh⟩

/-- C2 witness: on a concrete one-record (Wednesday) table the weekday
axis is the full Monday-to-Sunday list and Tuesday gets a zero row. -/
theorem c2_witness :
    (weekly_activity (mkStr "Overall") [sample_rec]).map Prod.fst = day_order ∧
    (mkStr "Tuesday", 0) ∈ weekly_activity (mkStr "Overall") [sample_rec] :=
  ⟨(c2_amended (mkStr "Overall") [sample_rec]).1,
   (c2_amended (mkStr "Overall") [sample_rec]).2.2.1 (mkStr "Tuesday")
     (by decide) (by decide)⟩

/-! ### Claim C4 -/

/-- C4 counterexample: `plot_monthly_timeline` with the `"Overall"`
filter does mutate the caller's table — it adds the `month_year`
column — so the "no mutation" half of the claim is false. -/
theorem c4_counterexample :
    ¬ (plot_monthly_timeline (mkStr "Overall") c4_table).2 = c4_table := by
  decide

/-- C4 (amended): the aggregation outputs are pure functions of the
records and the filter — repeated calls return identical results and
the records are never modified — but `plot_monthly_timeline` and
`plot_interactive_activity_analysis` invoked with the `"Overall"`
filter add a derived column (`month_year` / `day_name`) to the
caller's table; with any other filter the column lands on a filtered
copy and the caller's table is unchanged, as it is for
`plot_daily_timeline` and the heatmap. -/
theorem c4_amended (selected_user : Str) (t : Table) :
    ((plot_monthly_timeline selected_user t).2.records = t.records ∧
      (plot_monthly_timeline selected_user
          ((plot_monthly_timeline selected_user t).2)).1 =
        (plot_monthly_timeline selected_user t).1 ∧
      (selected_user ≠ mkStr "Overall" →
        (plot_monthly_timeline selected_user t).2 = t)) ∧
    ((plot_interactive_activity_analysis selected_user t).2.records = t.records ∧
      (plot_interactive_activity_analysis selected_user
          ((plot_interactive_activity_analysis selected_user t).2)).1 =
        (plot_interactive_activity_analysis selected_user t).1 ∧
      (selected_user ≠ mkStr "Overall" →
        (plot_interactive_activity_analysis selected_user t).2 = t)) ∧
    (plot_daily_timeline selected_user t).2 = t ∧
    (plot_activity_heatmap_matplotlib t).2 = t := by
  have hrec : ∀ (name : Str) (s : Table), (addCol name s).records = s.records := by
    intro name s
    simp only [addCol]
    split <;> rfl
  have hm : (plot_monthly_timeline selected_user t).2.records = t.records := by
    simp only [plot_monthly_timeline]
    split
    · rfl
    · exact hrec _ t
  have ha : (plot_interactive_activity_analysis selected_user t).2.records
      = t.records := by
    simp only [plot_interactive_activity_analysis]
    split
    · rfl
    · exact hrec _ t
  refine ⟨⟨hm, ?_, ?_⟩, ⟨ha, ?_, ?_⟩, rfl, rfl⟩
  · show monthly_counts selected_user
        ((plot_monthly_timeline selected_user t).2.records) =
      monthly_counts selected_user t.records
    rw [hm]
  · intro hne
    simp only [plot_monthly_timeline, if_pos hne]
  · show (weekly_activity selected_user
          ((plot_interactive_activity_analysis selected_user t).2.records),
        hourly_activity selected_user
          ((plot_interactive_activity_analysis selected_user t).2.records)) =
      (weekly_activity selected_user t.records,
        hourly_activity selected_user t.records)
    rw [ha]
  · intro hne
    simp only [plot_interactive_activity_analysis, if_pos hne]

/-- C4 witness: a filtered call leaves the table untouched, and the
repeated `"Overall"` call returns identical output. -/
theorem c4_witness :
    (plot_monthly_timeline (mkStr "Alice") c4_table).2 = c4_table ∧
    (plot_monthly_timeline (mkStr "Overall")
        ((plot_monthly_timeline (mkStr "Overall") c4_table).2)).1 =
      (plot_monthly_timeline (mkStr "Overall") c4_table).1 :=
  ⟨(c4_amended (mkStr "Alice") c4_table).1.2.2 (by decide),
   (c4_amended (mkStr "Overall") c4_table).1.2.1⟩

/-! ### Claim C5 -/

/-- C5: timestamp parsing is an all-or-nothing batch fallback — if every
timestamp parses month-first the batch is parsed month-first; if some
timestamp fails month-first but all parse day-first, the entire batch
is parsed day-first; if neither convention parses every timestamp the
batch fails; and a failed batch makes `preprocess` fail with no
partial table. -/
theorem c5_date_fallback :
    (∀ dates : List Str,
      (∀ d ∈ dates, (parse_timestamp false d).isSome = true) →
        parse_dates dates = to_datetime_batch false dates ∧
        (to_datetime_batch false dates).isSome = true) ∧
    (∀ dates : List Str,
      (∃ d ∈ dates, parse_timestamp false d = none) →
      (∀ d ∈ dates, (parse_timestamp true d).isSome = true) →
        parse_dates dates = to_datetime_batch true dates ∧
        (to_datetime_batch true dates).isSome = true) ∧
    (∀ dates : List Str,
      (∃ d ∈ dates, parse_timestamp false d = none) →
      (∃ d ∈ dates, parse_timestamp true d = none) →
        parse_dates dates = none) ∧
    (∀ data : Str,
      parse_dates (tokenizer_dates data) = none → preprocess data = none) := by
  refine ⟨?_, ?_, ?_, ?_⟩
  · intro dates h
    have hs := to_datetime_batch_isSome false dates h
    cases hb : to_datetime_batch false dates with
    | none => rw [hb] at hs; simp at hs
    | some l => exact ⟨by simp [parse_dates, hb], rfl⟩
  · intro dates hex hall
    have hn := to_datetime_batch_none false dates hex
    have hs := to_datetime_batch_isSome true dates hall
    exact ⟨by simp [parse_dates, hn], hs⟩
  · intro dates hex1 hex2
    have hn1 := to_datetime_batch_none false dates hex1
    have hn2 := to_datetime_batch_none true dates hex2
    simp [parse_dates, hn1, hn2]
  · intro data h
    simp [preprocess, h]

/-- C5 witness: the batch `["31/01/24, 10:00"]` fails month-first and
parses day-first, so the whole batch is parsed day-first. -/
theorem c5_witness :
    parse_dates [mkStr "31/01/24, 10:00"] =
      to_datetime_batch true [mkStr "31/01/24, 10:00"] ∧
    (to_datetime_batch true [mkStr "31/01/24, 10:00"]).isSome = true :=
  c5_date_fallback.2.1 [mkStr "31/01/24, 10:00"] (by decide) (by decide)

/-! ### Claim C9 -/

/-- C9: when the delimiter pattern matches nowhere, `preprocess`
returns a table with zero records and raises no error. -/
theorem c9_no_delimiter (data : Str) (h : scanSpans data = []) :
    preprocess data = some [] := by
  have hd : tokenizer_dates data = [] := by
    simp [tokenizer_dates, re_findall, h]
  have hm : tokenizer_messages data = [] := by
    simp [tokenizer_messages, re_split, h, splitFromSpans]
  simp [preprocess, hd, hm, parse_dates, to_datetime_batch]

/-- C9 witness: a concrete delimiter-free input yields the empty
table. -/
theorem c9_witness :
    scanSpans (mkStr "hello, friends; nothing here") = [] ∧
    preprocess (mkStr "hello, friends; nothing here") = some [] :=
  ⟨by decide, c9_no_delimiter _ (by decide)⟩

/-! ### Claim C10 -/

/-- C10: the literal filter value `"Overall"` always selects the whole
table — every aggregation entry point computes its unfiltered result,
even on tables containing a real sender named `"Overall"`, so that
sender can never be individually selected; `get_user_list` prepends the
same literal, and when a sender `"Overall"` exists the list holds that
string twice. -/
theorem c10_overall_filter (isEmoji : Char → Bool) (df : List Record) :
    select_user (mkStr "Overall") df = df ∧
    fetch_stats (mkStr "Overall") df = fetch_stats_all df ∧
    emoji_analysis isEmoji (mkStr "Overall") df = emoji_analysis_all isEmoji df ∧
    monthly_counts (mkStr "Overall") df = monthly_counts_all df ∧
    daily_counts (mkStr "Overall") df = daily_counts_all df ∧
    weekly_activity (mkStr "Overall") df = weekly_activity_all df ∧
    hourly_activity (mkStr "Overall") df = hourly_activity_all df ∧
    (get_user_list df).head? = some (mkStr "Overall") ∧
    (mkStr "Overall" ∈ df.map (fun r => r.user) →
      2 ≤ (get_user_list df).count (mkStr "Overall")) := by
  have hsel : select_user (mkStr "Overall") df = df := by
    simp [select_user]
  refine ⟨hsel, ?_, ?_, ?_, ?_, ?_, ?_, rfl, ?_⟩
  · simp [fetch_stats, fetch_stats_all, hsel]
  · simp [emoji_analysis, emoji_analysis_all, hsel]
  · simp [monthly_counts, monthly_counts_all, hsel]
  · simp [daily_counts, daily_counts_all, hsel]
  · simp [weekly_activity, weekly_activity_all, hsel]
  · simp [hourly_activity, hourly_activity_all, hsel]
  · intro hmem
    have h1 : mkStr "Overall" ∈ uniqueFirst (df.map (fun r => r.user)) :=
      (mem_uniqueFirst _ _).2 hmem
    have h2 : mkStr "Overall" ∈
        (uniqueFirst (df.map (fun r => r.user))).erase
          (mkStr "group_notification") := by
      rw [List.mem_erase_of_ne (by decide)]
      exact h1
    have h3 : mkStr "Overall" ∈ uniqueSorted lexLtCh
        ((uniqueFirst (df.map (fun r => r.user))).erase
          (mkStr "group_notification")) :=
      (mem_uniqueSorted _ _ _).2 h2
    have h5 : 0 < (uniqueSorted lexLtCh
        ((uniqueFirst (df.map (fun r => r.user))).erase
          (mkStr "group_notification"))).count (mkStr "Overall") :=
      List.count_pos_iff.mpr h3
    simp only [get_user_list]
    rw [List.count_cons_self]
    omega

/-- C10 witness: on a table whose only sender is literally named
`"Overall"`, the filter still selects the whole table and the user list
holds the string `"Overall"` twice. -/
theorem c10_witness :
    fetch_stats (mkStr "Overall") c10_df = fetch_stats_all c10_df ∧
    2 ≤ (get_user_list c10_df).count (mkStr "Overall") :=
  ⟨(c10_overall_filter (fun _ => false) c10_df).2.1,
   (c10_overall_filter (fun _ => false) c10_df).2.2.2.2.2.2.2.2 (by decide)⟩

/-! ### Claim C7 -/

theorem segmentsAfter_length (s : Str) :
    ∀ spans : List (Nat × Nat), (segmentsAfter s spans).length = spans.length := by
  intro spans
  induction spans with
  | nil => rfl
  | cons ab rest ih =>
      obtain ⟨a, b⟩ := ab
      simp [segmentsAfter, ih]

theorem splitFromSpans_map_trim (s : Str) :
    ∀ (spans : List (Nat × Nat)) (a b : Nat),
      (splitFromSpans s spans b).map trimPy = segmentsAfter s ((a, b) :: spans) := by
  intro spans
  induction spans with
  | nil =>
      intro a b
      simp [splitFromSpans, segmentsAfter]
  | cons cd rest ih =>
      intro a b
      obtain ⟨c, d⟩ := cd
      simp only [splitFromSpans, List.map_cons]
      rw [ih c d]
      simp only [segmentsAfter]

/-- C7: the tokenizer emits exactly one message per delimiter match, in
match order; each message is the whitespace-trimmed text between the
end of its match and the start of the next match (or the end of
input) — so multi-line bodies are never cut at a newline — and any
text before the first match produces no message. -/
theorem c7_tokenizer (data : Str) :
    tokenizer_messages data = segmentsAfter data (scanSpans data) ∧
    (tokenizer_messages data).length = (scanSpans data).length := by
  have key : tokenizer_messages data = segmentsAfter data (scanSpans data) := by
    unfold tokenizer_messages re_split
    cases hs : scanSpans data with
    | nil => simp [splitFromSpans, segmentsAfter]
    | cons ab rest =>
        obtain ⟨a, b⟩ := ab
        simp only [splitFromSpans, List.drop_succ_cons, List.drop_zero]
        exact splitFromSpans_map_trim data rest a b
  exact ⟨key, by rw [key, segmentsAfter_length]⟩

/-! ### Claim C8 -/

/-- C8: monthly and daily groupings are ordered chronologically — the
month keys (compared as strings by the groupby) increase in calendar
period and the date keys increase in calendar order — for any table
whose records carry the year/month ranges every parsed record has. -/
theorem c8_chronological (selected_user : Str) (df : List Record)
    (hb : ∀ r ∈ df, r.date.year ≤ 9999 ∧ 1 ≤ r.date.month ∧ r.date.month ≤ 12) :
    List.Chain' (fun a b => periodOfKey a.1 < periodOfKey b.1)
      (monthly_counts selected_user df) ∧
    List.Chain' (fun a b => dateLt a.1 b.1)
      (daily_counts selected_user df) := by
  have hsub : ∀ r ∈ select_user selected_user df, r ∈ df := by
    intro r hr
    simp only [select_user] at hr
    split at hr
    · exact List.mem_of_mem_filter hr
    · exact hr
  constructor
  · simp only [monthly_counts]
    rw [List.chain'_map]
    have hchain := chain'_uniqueSorted lexLtNat lexLtNat_total
      ((select_user selected_user df).map (fun r => month_year_key r.date))
    refine chain'_imp_of_mem _ hchain ?_
    intro k1 hk1 k2 hk2 hlex
    rw [mem_uniqueSorted] at hk1 hk2
    simp only [List.mem_map] at hk1 hk2
    obtain ⟨r1, hr1, hkey1⟩ := hk1
    obtain ⟨r2, hr2, hkey2⟩ := hk2
    obtain ⟨h1y, h1m⟩ := hb r1 (hsub r1 hr1)
    obtain ⟨h2y, h2m⟩ := hb r2 (hsub r2 hr2)
    subst hkey1
    subst hkey2
    show periodOfKey (month_year_key r1.date) < periodOfKey (month_year_key r2.date)
    rw [periodOfKey_month_year_key r1.date h1y h1m.2,
        periodOfKey_month_year_key r2.date h2y h2m.2]
    exact month_key_lt r1.date r2.date h1y h1m h2y h2m hlex
  · simp only [daily_counts]
    rw [List.chain'_map]
    have hchain := chain'_uniqueSorted dateLtB dateLtB_total
      ((select_user selected_user df).map (fun r => date_key r.date))
    exact hchain.imp (fun a b hab => dateLtB_dateLt a b hab)

/-- C8 witness: the Dec 2023 - Feb 2024 table orders its month rows
Dec, Jan, Feb (chronologically, not alphabetically). -/
theorem c8_witness :
    (∀ r ∈ c8_df, r.date.year ≤ 9999 ∧ 1 ≤ r.date.month ∧ r.date.month ≤ 12) ∧
    List.Chain' (fun a b => periodOfKey a.1 < periodOfKey b.1)
      (monthly_counts (mkStr "Overall") c8_df) ∧
    (monthly_counts (mkStr "Overall") c8_df).map Prod.fst =
      [month_year_key ⟨2023, 12, 5, 9, 0⟩, month_year_key ⟨2024, 1, 15, 9, 0⟩,
       month_year_key ⟨2024, 2, 20, 9, 0⟩] :=
  ⟨by decide, (c8_chronological (mkStr "Overall") c8_df (by decide)).1, by decide⟩

/-! ### Claim C6 -/

theorem boundaryAt_cons (c : Char) (l : Str) (i : Nat) :
    boundaryAt (c :: l) (i + 1) = boundaryAt l i := by
  simp [boundaryAt, List.drop_succ_cons]

theorem boundaryAt_mem (s : Str) (j : Nat) (h : boundaryAt s j = true) :
    58 ∈ s.map Char.toNat := by
  unfold boundaryAt at h
  cases hd : s.drop j with
  | nil => rw [hd] at h; simp at h
  | cons c1 tl =>
      cases tl with
      | nil => rw [hd] at h; simp at h
      | cons c2 tl2 =>
          rw [hd] at h
          simp only [Bool.and_eq_true, decide_eq_true_eq] at h
          have hc1 : c1 ∈ s := by
            have hmem : c1 ∈ s.drop j := by rw [hd]; simp
            exact List.mem_of_mem_drop hmem
          exact List.mem_map.2 ⟨c1, hc1, h.1⟩

/-- The scan of the sender regex finds the leftmost boundary in `rest`
and splits there. -/
theorem findColonWs_found : ∀ (rest acc : Str) (i : Nat),
    boundaryAt rest i = true →
    (∀ k, k < i → boundaryAt rest k = false) →
    findColonWs acc rest = some (acc.reverse ++ rest.take i, rest.drop (i + 2)) := by
  intro rest
  induction rest with
  | nil =>
      intro acc i hi _
      simp [boundaryAt] at hi
  | cons c1 rest ih =>
      cases rest with
      | nil =>
          intro acc i hi _
          exfalso
          cases i with
          | zero => simp [boundaryAt] at hi
          | succ k => simp [boundaryAt] at hi
      | cons c2 t =>
          intro acc i hi hmin
          cases i with
          | zero =>
              have hg : (c1.toNat = 58 && pyWs c2) = true := by
                simpa [boundaryAt] using hi
              simp [findColonWs, hg]
          | succ k =>
              have h0 : (c1.toNat = 58 && pyWs c2) = false := by
                have hm := hmin 0 (by omega)
                simpa [boundaryAt] using hm
              have hi' : boundaryAt (c2 :: t) k = true := by
                simpa [boundaryAt_cons] using hi
              have hmin' : ∀ j, j < k → boundaryAt (c2 :: t) j = false := by
                intro j hj
                have hm := hmin (j + 1) (by omega)
                simpa [boundaryAt_cons] using hm
              rw [show findColonWs acc (c1 :: c2 :: t) =
                    findColonWs (c1 :: acc) (c2 :: t) from by
                  simp [findColonWs, h0]]
              rw [ih (c1 :: acc) k hi' hmin']
              simp [List.append_assoc]

/-- When no boundary exists in `rest`, the scan fails. -/
theorem findColonWs_none : ∀ (rest acc : Str),
    (∀ i, boundaryAt rest i = false) →
    findColonWs acc rest = none := by
  intro rest
  induction rest with
  | nil => intro acc _; rfl
  | cons c1 rest ih =>
      cases rest with
      | nil => intro acc _; rfl
      | cons c2 t =>
          intro acc hall
          have h0 : (c1.toNat = 58 && pyWs c2) = false := by
            simpa [boundaryAt] using hall 0
          have hall' : ∀ i, boundaryAt (c2 :: t) i = false := by
            intro i
            simpa [boundaryAt_cons] using hall (i + 1)
          rw [show findColonWs acc (c1 :: c2 :: t) =
                findColonWs (c1 :: acc) (c2 :: t) from by simp [findColonWs, h0]]
          exact ih (c1 :: acc) hall'

/-- C6 counterexample: the claim's "split at any colon-space" reading
fails in both directions — a body beginning with `": "` contains a
colon-space but is classified as a group notification (the regex
requires a nonempty sender), and a body whose only colon is followed
by a tab contains no colon-space yet is split (the regex accepts any
whitespace after the colon). -/
theorem c6_counterexample :
    containsSub (mkStr ": ") (mkStr ": hello") = true ∧
    classify_msg (mkStr ": hello") =
      (mkStr "group_notification", mkStr ": hello") ∧
    containsSub (mkStr ": ") (mkStr "a:\tb") = false ∧
    classify_msg (mkStr "a:\tb") = (mkStr "a", mkStr "b") := by
  decide

/-- C6 (amended): the classifier splits at the leftmost position
`j ≥ 1` at which a colon is immediately followed by a whitespace
character: the sender is `body[0..j)` and the content is
`body[j+2..]` (the colon and the single whitespace are consumed).  If
no such boundary exists — including when the only colon-whitespace
starts the body — the sender is the group-notification sentinel and
the content is the whole body. -/
theorem c6_amended :
    (∀ (body : Str) (j : Nat), senderBoundary body j →
      (∀ i, i < j → ¬ senderBoundary body i) →
      classify_msg body = (body.take j, body.drop (j + 2))) ∧
    (∀ body : Str, (∀ j, ¬ senderBoundary body j) →
      classify_msg body = (mkStr "group_notification", body)) := by
  constructor
  · intro body j hj hmin
    obtain ⟨hj1, hjb⟩ := hj
    cases body with
    | nil =>
        exfalso
        cases j with
        | zero => omega
        | succ k => simp [boundaryAt] at hjb
    | cons c0 rest =>
        obtain ⟨k, rfl⟩ : ∃ k, j = k + 1 := ⟨j - 1, by omega⟩
        have hk : boundaryAt rest k = true := by
          simpa [boundaryAt_cons] using hjb
        have hkmin : ∀ i, i < k → boundaryAt rest i = false := by
          intro i hi
          have hni := hmin (i + 1) (by omega)
          have hb' : ¬ boundaryAt (c0 :: rest) (i + 1) = true :=
            fun hc => hni ⟨by omega, hc⟩
          rw [boundaryAt_cons] at hb'
          simpa using hb'
        have hfound := findColonWs_found rest [c0] k hk hkmin
        simp only [classify_msg, split_sender]
        rw [hfound]
        simp

  · intro body hnone
    cases body with
    | nil => rfl
    | cons c0 rest =>
        have hall : ∀ i, boundaryAt rest i = false := by
          intro i
          have hni := hnone (i + 1)
          have hb' : ¬ boundaryAt (c0 :: rest) (i + 1) = true :=
            fun hc => hni ⟨by omega, hc⟩
          rw [boundaryAt_cons] at hb'
          simpa using hb'
        simp only [classify_msg, split_sender]
        rw [findColonWs_none rest [c0] hall]

/-- C6 witness: the specification's own boundary vectors — a sender
with a colon inside the content splits only at the first boundary, and
a system message with no boundary keeps the sentinel. -/
theorem c6_witness :
    classify_msg (mkStr "Alice: hello: world") =
      (mkStr "Alice", mkStr "hello: world") ∧
    classify_msg (mkStr "Messages and calls are end-to-end encrypted.") =
      (mkStr "group_notification",
        mkStr "Messages and calls are end-to-end encrypted.") := by
  constructor
  · have h := c6_amended.1 (mkStr "Alice: hello: world") 5 (by decide)
      (by decide)
    exact h.trans (by decide)
  · refine c6_amended.2 _ ?_
    rintro j ⟨-, hb⟩
    have hmem := boundaryAt_mem _ j hb
    revert hmem
    decide

/-! ### Claim C3 -/

/-- Every row of the filled pivot frame is keyed by a day name present
in the data, and its cells are the (fillna-ed) counts over the hour
columns. -/
theorem fillna_pivot_mem (df : List Record) (p : Str × List (Option Nat))
    (hp : p ∈ fillna0 (pivot_rows df)) :
    p.1 ∈ df.map (fun r => day_name r.date) ∧
    p.2 = (hour_cols df).map (fun h =>
      some (df.countP (fun r => day_name r.date = p.1 ∧ r.date.hour = h))) := by
  simp only [fillna0, List.mem_map] at hp
  obtain ⟨q, hq, hpq⟩ := hp
  simp only [pivot_rows, List.mem_map] at hq
  obtain ⟨dn, hdn, hqd⟩ := hq
  rw [mem_uniqueSorted] at hdn
  subst hqd
  subst hpq
  refine ⟨hdn, ?_⟩
  simp only [List.map_map]
  apply List.map_congr_left
  intro h _
  simp only [Function.comp_apply]
  dsimp only
  split
  · next h0 => exact congrArg some h0.symm
  · rfl

/-- A day name present in the data is a key of the filled pivot. -/
theorem pivot_key_exists (df : List Record) (dn : Str)
    (hdn : dn ∈ df.map (fun r => day_name r.date)) :
    ∃ p ∈ fillna0 (pivot_rows df), p.1 = dn := by
  have h1 : dn ∈ uniqueSorted lexLtCh (df.map (fun r => day_name r.date)) :=
    (mem_uniqueSorted _ _ _).2 hdn
  have h2 : (dn, (hour_cols df).map (fun h =>
      let c := df.countP (fun r => day_name r.date = dn ∧ r.date.hour = h)
      if c = 0 then none else some c)) ∈ pivot_rows df := by
    simp only [pivot_rows]
    exact List.mem_map.2 ⟨dn, h1, rfl⟩
  exact ⟨_, List.mem_map.2 ⟨_, h2, rfl⟩, rfl⟩

/-- Reindexing a weekday absent from the data gives an all-NaN row. -/
theorem reindexRow_absent (df : List Record) (dn : Str)
    (hd : ∀ r ∈ df, ¬ day_name r.date = dn) :
    reindexRow (fillna0 (pivot_rows df)) (hour_cols df).length dn =
      List.replicate (hour_cols df).length none := by
  have hfind : (fillna0 (pivot_rows df)).find? (fun p => p.1 = dn) = none := by
    rw [List.find?_eq_none]
    intro p hp
    have h1 := (fillna_pivot_mem df p hp).1
    simp only [List.mem_map] at h1
    obtain ⟨r, hr, hrd⟩ := h1
    simp only [decide_eq_true_eq]
    intro heq
    exact hd r hr (hrd.trans heq)
  simp [reindexRow, hfind]

/-- Reindexing a weekday present in the data keeps the pivot row: one
`some`-cell per present hour, holding the (possibly zero) count. -/
theorem reindexRow_present (df : List Record) (dn : Str)
    (hd : ∃ r ∈ df, day_name r.date = dn) :
    reindexRow (fillna0 (pivot_rows df)) (hour_cols df).length dn =
      (hour_cols df).map (fun h =>
        some (df.countP (fun r => day_name r.date = dn ∧ r.date.hour = h))) := by
  cases hfind : (fillna0 (pivot_rows df)).find? (fun p => p.1 = dn) with
  | none =>
      exfalso
      rw [List.find?_eq_none] at hfind
      obtain ⟨r, hr, hrd⟩ := hd
      obtain ⟨p, hp, hpd⟩ := pivot_key_exists df dn (List.mem_map.2 ⟨r, hr, hrd⟩)
      exact hfind p hp (by simp [hpd])
  | some q =>
      have hqs := @List.find?_some _
        (fun p : Str × List (Option Nat) => decide (p.1 = dn)) q
        (fillna0 (pivot_rows df)) hfind
      have hq1 : q.1 = dn := of_decide_eq_true hqs
      have hqm := List.mem_of_find?_eq_some hfind
      have hcells := (fillna_pivot_mem df q hqm).2
      simp only [reindexRow, hfind]
      rw [hcells, hq1]

/-- C3 counterexample: on a one-record table the grid has a single
column (the one hour present), not 24, and the absent weekdays' rows
hold nulls, not zeros — because `fillna(0)` runs before
`reindex(ordered_days)`. -/
theorem c3_counterexample :
    (hour_cols [sample_rec]).length = 1 ∧
    (heatmap_grid [sample_rec]).map (fun p => p.2.length) = List.replicate 7 1 ∧
    (mkStr "Monday", [(none : Option Nat)]) ∈ heatmap_grid [sample_rec] := by
  decide

/-- C3 (amended): the heatmap grid has exactly the 7 weekday rows in
Monday-to-Sunday order, but its columns are the distinct hours present
in the data in increasing order (not always 0-23); a weekday with
messages gets one `some`-count cell per column — zero where that
weekday has no messages at that hour — while a weekday with no
messages at all gets an all-null (NaN) row, since `fillna(0)` is
applied before `reindex`. -/
theorem c3_amended (df : List Record) :
    (heatmap_grid df).map Prod.fst = day_order ∧
    List.Chain' (fun a b => a < b) (hour_cols df) ∧
    (∀ dn row, (dn, row) ∈ heatmap_grid df →
      ((∃ r ∈ df, day_name r.date = dn) →
        row = (hour_cols df).map (fun h =>
          some (df.countP (fun r => day_name r.date = dn ∧ r.date.hour = h)))) ∧
      ((∀ r ∈ df, ¬ day_name r.date = dn) →
        row = List.replicate (hour_cols df).length none)) := by
  refine ⟨?_, ?_, ?_⟩
  · simp [heatmap_grid, reindex_days, List.map_map, Function.comp_def]
  · have hchain := chain'_uniqueSorted (fun a b : Nat => decide (a < b))
      (fun a b h => natLtB_total a b h) (df.map (fun r => r.date.hour))
    exact hchain.imp (fun a b hab => of_decide_eq_true hab)
  · intro dn row hmem
    simp only [heatmap_grid, reindex_days, List.mem_map] at hmem
    obtain ⟨d, hd, heq⟩ := hmem
    have hdn : d = dn := congrArg Prod.fst heq
    subst hdn
    have hrow : row = reindexRow (fillna0 (pivot_rows df)) (hour_cols df).length d :=
      (congrArg Prod.snd heq).symm
    subst hrow
    exact ⟨fun hpres => reindexRow_present df d hpres,
           fun habs => reindexRow_absent df d habs⟩

/-- C3 witness: on the concrete one-record table the row axis is the
full Monday-to-Sunday list and the present weekday's row holds the
counts. -/
theorem c3_witness :
    (heatmap_grid [sample_rec]).map Prod.fst = day_order ∧
    (mkStr "Wednesday", [some 1]) ∈ heatmap_grid [sample_rec] ∧
    [(some 1 : Option Nat)] = (hour_cols [sample_rec]).map (fun h =>
      some (List.countP
        (fun r => day_name r.date = mkStr "Wednesday" ∧ r.date.hour = h)
        [sample_rec])) :=
  ⟨(c3_amended [sample_rec]).1,
   by decide,
   ((c3_amended [sample_rec]).2.2 (mkStr "Wednesday") [some 1] (by decide)).1
     (by decide)⟩
